import Mathlib

/-!
Verification development for the Album_Art_Visualizer repository.

The two subsystems under study are embedded shallowly:
* the Polling & Reconciliation Engine of `src/components/recentGrid.jsx`
  (`normalizeArraySource`, `sameTiles`, `applyNext`, `fetchOnce`/`loop`,
  the render-slot padding), and
* the token lifecycle code of `src/SpotifyPage.jsx` (`store`, `safeRefresh`)
  and `src/App.jsx` (the `safeRefresh` catch classifier and the
  `setInterval` refresher's catch handler).

JavaScript values are modelled with explicit sums: a tile's `src` is
`Option String` (`none` is JS `null`), string truthiness is non-emptiness,
and asynchronous outcomes (fetch resolution, fetch rejection) are passed to
the step functions as explicit arguments so that one call of a step
function corresponds to one resumption of the JS coroutine.
-/

namespace AlbumArt

/-- JS truthiness of a string: non-empty. -/
def strTruthy (s : String) : Bool := s ≠ ""

/-- JS truthiness of a nullable string: non-null and non-empty. -/
def optStrTruthy : Option String → Bool
  | none => false
  | some s => s ≠ ""

/-- A tile `{id, src}` from `recentGrid.jsx`; `src = none` is JS `null`
(placeholders use it). -/
structure Tile where
  id : String
  src : Option String
deriving DecidableEq, Repr

/-- An element of a static array source: either a bare string or an object
whose `id`/`src` properties may be absent (JS `undefined`). -/
inductive SrcElem where
  | str (s : String)
  | obj (oid : Option String) (osrc : Option String)
deriving DecidableEq, Repr

/-- One element of the `.map((v, i) => ...)` step of `normalizeArraySource`:
`typeof v === "string" ? { id: v, src: v } : { id: v.id ?? String(i), src: v.src ?? "" }`. -/
def normElem (i : Nat) : SrcElem → Tile
  | .str s => ⟨s, some s⟩
  | .obj oid osrc => ⟨oid.getD (toString i), some (osrc.getD "")⟩

/-- The indexed map underlying `arr.map((v, i) => ...)`. -/
def mapWithIndex : Nat → List SrcElem → List Tile
  | _, [] => []
  | i, v :: rest => normElem i v :: mapWithIndex (i + 1) rest

/-- `normalizeArraySource` of `recentGrid.jsx` (the input is already known
to be an array, so the `Array.isArray` guard is statically true): map each
element with its index, then `.filter((t) => t.id && t.src)`. -/
def normalizeArraySource (arr : List SrcElem) : List Tile :=
  (mapWithIndex 0 arr).filter fun t => strTruthy t.id && optStrTruthy t.src

/-- `sameTiles` of `recentGrid.jsx`:
`a.length === b.length && a.every((t, i) => t.id === b[i].id && t.src === b[i].src)`. -/
def sameTiles (a b : List Tile) : Bool :=
  a.length == b.length &&
    (a.zip b).all fun p => p.1.id == p.2.id && p.1.src == p.2.src

/-- The backfill loop inside `applyNext`:
`for (const t of prevRef.current) { if (next.length >= maxTiles) break;
if (!seen.has(t.id)) { next.push(t); seen.add(t.id); } }`.
The first list argument is the remaining `previous` tiles, the second is
the accumulator `next`, the third the mutable `seen` set. -/
def backfill (m : Nat) : List Tile → List Tile → List String → List Tile
  | [], next, _ => next
  | t :: rest, next, seen =>
    if m ≤ next.length then next
    else if t.id ∈ seen then backfill m rest next seen
    else backfill m rest (next ++ [t]) (t.id :: seen)

/-- The tile list computed by `applyNext` of `recentGrid.jsx` before the
`sameTiles` comparison: `seen = new Set(fresh.map(t => t.id))`,
`next = fresh.slice(0, maxTiles)`, then the backfill loop guarded by
`next.length < maxTiles && prevRef.current.length`. -/
def applyNextCompute (m : Nat) (prev fresh : List Tile) : List Tile :=
  if (fresh.take m).length < m ∧ prev.length ≠ 0 then
    backfill m prev (fresh.take m) (fresh.map Tile.id)
  else fresh.take m

/-- Full `applyNext` step: returns the new `prevRef.current` together with
whether an emission (`setTiles` / `onTiles`) fired. When `sameTiles` holds
nothing is updated and nothing is emitted. -/
def applyNext (m : Nat) (prev fresh : List Tile) : List Tile × Bool :=
  let next := applyNextCompute m prev fresh
  if sameTiles prev next then (prev, false) else (next, true)

/-- Engine state of one `RecentGrid` effect instance: the previous stable
tile list (`prevRef.current`), the log of emissions so far, and the
teardown flag `stop`. -/
structure EngineState where
  prev : List Tile
  emitted : List (List Tile)
  stop : Bool
deriving DecidableEq, Repr

/-- `applyNext` acting on the engine state: on a difference it writes
`prevRef.current` and appends the emitted list to the log. -/
def applyNextState (m : Nat) (st : EngineState) (fresh : List Tile) : EngineState :=
  let r := applyNext m st.prev fresh
  if r.2 then { st with prev := r.1, emitted := st.emitted ++ [r.1] } else st

/-- The resolution of one engine cycle, passed to `loopStep` explicitly:
a static array source, a dynamic fetch that resolved with
`{tiles, retryMs}`, or a dynamic fetch that rejected (threw). -/
inductive FetchOutcome where
  | staticSource (arr : List SrcElem)
  | dynamicSuccess (tiles : List Tile) (retryMs : Option Int)
  | dynamicThrow
deriving Repr

/-- One resumption of `loop` in `recentGrid.jsx`. The returned
`Option Int` is the delay of the single timer armed by `schedule`
(`none` = no timer armed).

* static: `fetchOnce` runs `applyNext(normalizeArraySource(source).slice(0, maxTiles))`
  and `loop` returns without scheduling (both on `stop` and on the
  `Array.isArray(source)` early return);
* dynamic success: `fetchOnce` runs `applyNext` on the resolved tiles
  (note: before any `stop` check), then `loop` checks `stop` and otherwise
  schedules `Math.max(0, (wait ?? pollMs))`;
* dynamic throw: the rejection is caught, `applyNext` never runs, and
  unless stopped the next cycle is scheduled at the fixed 30000 ms. -/
def loopStep (pollMs : Int) (m : Nat) (st : EngineState) (o : FetchOutcome) :
    EngineState × Option Int :=
  match o with
  | .staticSource arr =>
    (applyNextState m st ((normalizeArraySource arr).take m), none)
  | .dynamicSuccess tiles r =>
    let st' := applyNextState m st tiles
    if st.stop then (st', none) else (st', some (max 0 (r.getD pollMs)))
  | .dynamicThrow =>
    if st.stop then (st, none) else (st, some 30000)

/-- A placeholder tile as built by the render path:
`{ id: `placeholder-(index)`, src: null }`. -/
def mkPlaceholder (j : Nat) : Tile := ⟨"placeholder-" ++ toString j, none⟩

/-- The render-side padding loop of `recentGrid.jsx`:
`while (slots.length < maxTiles) slots.push({id: ..., src: null})`. -/
def padSlots (m : Nat) (slots : List Tile) : List Tile :=
  if h : slots.length < m then
    padSlots m (slots ++ [mkPlaceholder slots.length])
  else slots
termination_by m - slots.length
decreasing_by simp; omega

/-- The full render-slot computation: `tiles.slice(0, maxTiles)` then the
padding loop. -/
def renderSlots (m : Nat) (tiles : List Tile) : List Tile :=
  padSlots m (tiles.take m)

/-- A run of consecutive placeholder tiles starting at slot `i`
(specification-side description of what the padding loop appends). -/
def placeholderRun : Nat → Nat → List Tile
  | _, 0 => []
  | i, n + 1 => mkPlaceholder i :: placeholderRun (i + 1) n

/-- Modelled after the amended reading of the spec's normalization text:
a single filterMap pass in which a bare non-empty string `s` yields
`{id: s, src: s}`, and an object yields a tile after defaulting a missing
id to the stringified index and a missing src to `""`, kept only when both
are non-empty. Used to compare against `normalizeArraySource`. -/
def normalizeSpec : Nat → List SrcElem → List Tile
  | _, [] => []
  | i, .str s :: rest =>
    if s ≠ "" then ⟨s, some s⟩ :: normalizeSpec (i + 1) rest
    else normalizeSpec (i + 1) rest
  | i, .obj oid osrc :: rest =>
    if oid.getD (toString i) ≠ "" ∧ osrc.getD "" ≠ "" then
      ⟨oid.getD (toString i), some (osrc.getD "")⟩ :: normalizeSpec (i + 1) rest
    else normalizeSpec (i + 1) rest

/-- `store.get` of `SpotifyPage.jsx` / `App.jsx`:
`const x = localStorage.getItem(key); try { return x ? JSON.parse(x) : null } catch { return null }`.
`localStorage` is the association list `st`; `JSON.parse` is the external
platform function `parse`, whose exception is the `Except.error` case. -/
def storeGet {α : Type} (parse : String → Except String α)
    (st : List (String × String)) (key : String) : Option α :=
  match st.lookup key with
  | none => none
  | some x =>
    if x = "" then none
    else
      match parse x with
      | .ok v => some v
      | .error _ => none

/-- A Spotify token record as persisted by the app. -/
structure Token where
  access_token : Option String
  refresh_token : Option String
  expires_in : Int
  expires_at : Int
  received_at : Int
deriving DecidableEq, Repr

/-- The JSON body of a successful token-endpoint refresh response. -/
structure RefreshResponse where
  access_token : String
  expires_in : Int
  refresh_token : Option String
deriving DecidableEq, Repr

/-- Outcome of the awaited `refreshToken` network call. -/
inductive RefreshOutcome where
  | ok (rt : RefreshResponse)
  | err (msg : String)
deriving Repr

/-- State owned by one `SpotifyPage` component instance: the single-flight
marker `refreshingRef.current`, the React token state, the persisted
`spotify_token` record, the error banner, and a counter of network
requests issued (for the no-second-request property). -/
structure ManagerState where
  refreshing : Bool
  token : Option Token
  persisted : Option Token
  error : String
  networkCalls : Nat
deriving DecidableEq, Repr

/-- JS `t?.refresh_token` truthiness. -/
def hasRefreshToken : Option Token → Bool
  | none => false
  | some tok => optStrTruthy tok.refresh_token

/-- `safeRefresh` of `SpotifyPage.jsx`, one complete invocation. The guard
`if (refreshingRef.current || !t?.refresh_token) return null` issues no
network request and changes nothing; otherwise the single network call's
outcome `o` is consumed, the success path builds the merged token
(`refresh_token` kept unless the server rotated it), persists it and sets
state, the failure path only sets the error banner, and the `finally`
clears the in-flight marker. -/
def safeRefresh (now : Int) (st : ManagerState) (t : Option Token)
    (o : RefreshOutcome) : Option Token × ManagerState :=
  if st.refreshing || !hasRefreshToken t then (none, st)
  else
    match t, o with
    | some tok, .ok rt =>
      let newTok : Token :=
        { access_token := some rt.access_token
          refresh_token :=
            match rt.refresh_token with
            | some r => some r
            | none => tok.refresh_token
          expires_in := rt.expires_in
          expires_at := now + rt.expires_in * 1000
          received_at := now }
      (some newTok,
        { st with token := some newTok, persisted := some newTok
                  refreshing := false, networkCalls := st.networkCalls + 1 })
    | some _, .err m =>
      (none,
        { st with error := "Refresh error: " ++ m
                  refreshing := false, networkCalls := st.networkCalls + 1 })
    | none, _ => (none, st)

/-- The parsed error body the `App.jsx` classifier looks for. -/
structure ErrBody where
  error : Option String
deriving DecidableEq, Repr

/-- A thrown JS error as observed by the catch blocks of `App.jsx`:
its message, and its `response` property when one exists. -/
structure JsError where
  message : String
  response : Option ErrBody
deriving DecidableEq, Repr

/-- The error thrown by `refreshToken` in `App.jsx` / `SpotifyPage.jsx` on
a non-ok HTTP status: `new Error("Refresh failed: " + status)`. A plain
`Error` carries no `response` property. -/
def refreshTokenError (status : Nat) : JsError :=
  { message := "Refresh failed: " ++ toString status, response := none }

/-- Token-related state of the `App` component. -/
structure AppState where
  token : Option Token
  persisted : Option Token
  error : String
deriving DecidableEq, Repr

/-- The catch block of `safeRefresh` in `App.jsx`: reads `e.response`
(when present) for `error === "invalid_grant"` and only then deletes the
persisted token and logs out; it always sets the error banner. -/
def appSafeRefreshCatch (st : AppState) (e : JsError) : AppState :=
  let st1 :=
    match e.response with
    | some body =>
      if body.error = some "invalid_grant" then
        { st with persisted := none, token := none }
      else st
    | none => st
  { st1 with error := "Refresh error: " ++ e.message }

/-- The catch block of the 10-second `setInterval` refresher in `App.jsx`:
`store.del("spotify_token"); setToken(null); setError(e.message)` —
unconditionally, for every thrown error. -/
def intervalRefreshCatch (st : AppState) (e : JsError) : AppState :=
  { st with persisted := none, token := none, error := e.message }

/-! ## Helper lemmas -/

lemma tile_eq_iff (x y : Tile) : x = y ↔ x.id = y.id ∧ x.src = y.src := by
  cases x; cases y; simp

lemma mem_zip_self : ∀ (a : List Tile) (p : Tile × Tile), p ∈ a.zip a → p.1 = p.2 := by
  intro a
  induction a with
  | nil =>
    intro p hp
    simp at hp
  | cons x a ih =>
    intro p hp
    rw [List.zip_cons_cons] at hp
    rcases List.mem_cons.1 hp with h | h
    · rw [h]
    · exact ih p h

lemma sameTiles_refl (a : List Tile) : sameTiles a a = true := by
  unfold sameTiles
  simp only [beq_self_eq_true, Bool.true_and, List.all_eq_true]
  intro p hp
  rw [mem_zip_self a p hp]
  simp

lemma sameTiles_iff : ∀ a b : List Tile, sameTiles a b = true ↔ a = b := by
  intro a
  induction a with
  | nil =>
    intro b
    cases b <;> simp [sameTiles]
  | cons x a ih =>
    intro b
    cases b with
    | nil => simp [sameTiles]
    | cons y b =>
      constructor
      · intro hst
        simp only [sameTiles, List.zip_cons_cons, List.all_cons, List.length_cons,
          Bool.and_eq_true, beq_iff_eq, Nat.add_right_cancel_iff] at hst
        obtain ⟨hlen, ⟨hid, hsrc⟩, hall⟩ := hst
        have hab : a = b := (ih b).1 (by
          simp only [sameTiles, Bool.and_eq_true, beq_iff_eq]
          exact ⟨hlen, hall⟩)
        rw [(tile_eq_iff x y).2 ⟨hid, hsrc⟩, hab]
      · intro hcc
        rw [hcc]
        exact sameTiles_refl (y :: b)

lemma backfill_of_ge (m : Nat) (prev next : List Tile) (seen : List String)
    (h : m ≤ next.length) : backfill m prev next seen = next := by
  cases prev with
  | nil => rfl
  | cons t rest => simp [backfill, h]

lemma backfill_skip (m : Nat) :
    ∀ (l rest next : List Tile) (seen : List String),
      (∀ t ∈ l, t.id ∈ seen) →
      backfill m (l ++ rest) next seen = backfill m rest next seen := by
  intro l
  induction l with
  | nil => intro rest next seen _; rfl
  | cons t l ih =>
    intro rest next seen hmem
    by_cases hge : m ≤ next.length
    · rw [List.cons_append, backfill, if_pos hge, backfill_of_ge m rest next seen hge]
    · rw [List.cons_append, backfill, if_neg hge,
        if_pos (hmem t (List.mem_cons_self t l))]
      exact ih rest next seen fun t' ht' => hmem t' (List.mem_cons_of_mem t ht')

lemma backfill_push_all (m : Nat) :
    ∀ (B next : List Tile) (seen : List String),
      (B.map Tile.id).Nodup →
      (∀ t ∈ B, t.id ∉ seen) →
      next.length + B.length ≤ m →
      backfill m B next seen = next ++ B := by
  intro B
  induction B with
  | nil => intro next seen _ _ _; simp [backfill]
  | cons b B ih =>
    intro next seen hnodup hnotin hlen
    have hlt : ¬ m ≤ next.length := by
      simp only [List.length_cons] at hlen
      omega
    rw [backfill, if_neg hlt, if_neg (by simp at hnotin; exact hnotin.1)]
    simp only [List.map_cons, List.nodup_cons] at hnodup
    have hrec := ih (next ++ [b]) (b.id :: seen) hnodup.2
      (by
        intro t ht
        simp only [List.mem_cons]
        push_neg
        refine ⟨?_, hnotin t (List.mem_cons_of_mem b ht)⟩
        intro hid
        exact hnodup.1 (hid ▸ List.mem_map_of_mem Tile.id ht))
      (by simp only [List.length_append, List.length_cons, List.length_nil] at hlen ⊢; omega)
    rw [hrec, List.append_assoc]
    rfl

lemma backfill_exists (m : Nat) :
    ∀ (prev next : List Tile) (seen : List String),
      ∃ B, backfill m prev next seen = next ++ B ∧
        (∀ t ∈ B, t ∈ prev ∧ t.id ∉ seen) ∧
        (B.map Tile.id).Nodup ∧
        (next.length < m → (next ++ B).length ≤ m) ∧
        (m ≤ next.length → B = []) := by
  intro prev
  induction prev with
  | nil =>
    intro next seen
    refine ⟨[], by rw [backfill, List.append_nil], ?_, List.nodup_nil, ?_, fun _ => rfl⟩
    · intro t ht
      simp at ht
    · intro h
      rw [List.append_nil]
      omega
  | cons t rest ih =>
    intro next seen
    by_cases hge : m ≤ next.length
    · refine ⟨[], ?_, ?_, List.nodup_nil, ?_, fun _ => rfl⟩
      · rw [backfill, if_pos hge, List.append_nil]
      · intro t' ht'
        simp at ht'
      · intro h
        omega
    · by_cases hseen : t.id ∈ seen
      · obtain ⟨B, hB, hmem, hnodup, hlen, hempty⟩ := ih next seen
        refine ⟨B, ?_, ?_, hnodup, hlen, hempty⟩
        · rw [backfill, if_neg hge, if_pos hseen, hB]
        · intro t' ht'
          exact ⟨List.mem_cons_of_mem t (hmem t' ht').1, (hmem t' ht').2⟩
      · obtain ⟨B', hB', hmem', hnodup', hlen', hempty'⟩ := ih (next ++ [t]) (t.id :: seen)
        refine ⟨t :: B', ?_, ?_, ?_, ?_, fun h => absurd hge (by omega)⟩
        · rw [backfill, if_neg hge, if_neg hseen, hB', List.append_assoc]
          rfl
        · intro t' ht'
          rcases List.mem_cons.1 ht' with h | h
          · exact ⟨h ▸ List.mem_cons_self t rest, h ▸ hseen⟩
          · obtain ⟨h1, h2⟩ := hmem' t' h
            refine ⟨List.mem_cons_of_mem t h1, ?_⟩
            intro hc
            exact h2 (List.mem_cons_of_mem _ hc)
        · simp only [List.map_cons, List.nodup_cons]
          refine ⟨?_, hnodup'⟩
          intro hc
          obtain ⟨t', ht', hid⟩ := List.mem_map.1 hc
          exact (hmem' t' ht').2 (hid ▸ List.mem_cons_self _ _)
        · intro hlt
          by_cases hge2 : m ≤ (next ++ [t]).length
          · have hB'nil : B' = [] := hempty' hge2
            subst hB'nil
            simp only [List.length_append, List.length_cons, List.length_nil]
            omega
          · have hlen2 := hlen' (by omega)
            simp only [List.length_append, List.length_cons, List.length_nil] at hlen2 ⊢
            omega

lemma applyNextCompute_spec (m : Nat) (prev fresh : List Tile) :
    ∃ B, applyNextCompute m prev fresh = fresh.take m ++ B ∧
      (∀ t ∈ B, t ∈ prev ∧ t.id ∉ fresh.map Tile.id) ∧
      (B.map Tile.id).Nodup ∧
      (applyNextCompute m prev fresh).length ≤ m := by
  unfold applyNextCompute
  by_cases hc : (fresh.take m).length < m ∧ prev.length ≠ 0
  · rw [if_pos hc]
    obtain ⟨B, hB, hmem, hnodup, hlen, -⟩ :=
      backfill_exists m prev (fresh.take m) (fresh.map Tile.id)
    exact ⟨B, hB, hmem, hnodup, by rw [hB]; exact hlen hc.1⟩
  · rw [if_neg hc]
    refine ⟨[], (List.append_nil _).symm, ?_, List.nodup_nil, List.length_take_le m fresh⟩
    intro t ht
    simp at ht

lemma take_id_mem (m : Nat) (fresh : List Tile) :
    ∀ t ∈ fresh.take m, t.id ∈ fresh.map Tile.id := by
  intro t ht
  exact List.mem_map_of_mem Tile.id (List.take_subset m fresh ht)

lemma applyNextCompute_idem (m : Nat) (prev fresh : List Tile) :
    applyNextCompute m (applyNextCompute m prev fresh) fresh =
      applyNextCompute m prev fresh := by
  obtain ⟨B, hB, hmem, hnodup, hlen⟩ := applyNextCompute_spec m prev fresh
  set R := applyNextCompute m prev fresh with hRdef
  have hunfold : ∀ p : List Tile, applyNextCompute m p fresh =
      if (fresh.take m).length < m ∧ p.length ≠ 0 then
        backfill m p (fresh.take m) (fresh.map Tile.id)
      else fresh.take m := fun p => rfl
  by_cases htk : (fresh.take m).length < m
  · by_cases hR : R.length = 0
    · have hnil : R = [] := List.length_eq_zero.1 hR
      have hnext : fresh.take m = [] :=
        (List.append_eq_nil.1 (hB.symm.trans hnil)).1
      rw [hnil, hunfold, if_neg (by simp), hnext]
    · rw [hunfold, if_pos ⟨htk, hR⟩, hB,
        backfill_skip m (fresh.take m) B (fresh.take m) (fresh.map Tile.id)
          (take_id_mem m fresh),
        backfill_push_all m B (fresh.take m) (fresh.map Tile.id) hnodup
          (fun t ht => (hmem t ht).2)
          (by rw [hB, List.length_append] at hlen; exact hlen)]
  · have hRnext : R = fresh.take m := by
      rw [hRdef, hunfold, if_neg (fun hc => htk hc.1)]
    rw [hunfold, if_neg (fun hc => htk hc.1), hRnext]

lemma padSlots_spec (m : Nat) :
    ∀ (k : Nat) (slots : List Tile), m - slots.length ≤ k →
      padSlots m slots = slots ++ placeholderRun slots.length (m - slots.length) := by
  intro k
  induction k with
  | zero =>
    intro slots h
    have hle : ¬ slots.length < m := by omega
    rw [padSlots, dif_neg hle]
    have : m - slots.length = 0 := by omega
    simp [this, placeholderRun]
  | succ k ih =>
    intro slots h
    by_cases hlt : slots.length < m
    · rw [padSlots, dif_pos hlt]
      rw [ih (slots ++ [mkPlaceholder slots.length]) (by simp; omega)]
      have h1 : (slots ++ [mkPlaceholder slots.length]).length = slots.length + 1 := by simp
      rw [h1, List.append_assoc]
      have h2 : m - slots.length = (m - (slots.length + 1)) + 1 := by omega
      rw [h2]
      rfl
    · rw [padSlots, dif_neg hlt]
      have : m - slots.length = 0 := by omega
      simp [this, placeholderRun]

lemma placeholderRun_length : ∀ (i n : Nat), (placeholderRun i n).length = n := by
  intro i n
  induction n generalizing i with
  | zero => rfl
  | succ n ih => simp [placeholderRun, ih]

lemma normalize_filter_eq : ∀ (arr : List SrcElem) (i : Nat),
    (mapWithIndex i arr).filter (fun t => strTruthy t.id && optStrTruthy t.src) =
      normalizeSpec i arr := by
  intro arr
  induction arr with
  | nil => intro i; rfl
  | cons v rest ih =>
    intro i
    rw [mapWithIndex, List.filter_cons, ih (i + 1)]
    cases v with
    | str s =>
      by_cases hs : s = "" <;>
        simp [normElem, normalizeSpec, strTruthy, optStrTruthy, hs]
    | obj oid osrc =>
      by_cases hid : oid.getD (toString i) = ""
      · simp [normElem, normalizeSpec, strTruthy, optStrTruthy, hid]
      · by_cases hsrc : osrc.getD "" = ""
        · simp [normElem, normalizeSpec, strTruthy, optStrTruthy, hid, hsrc]
        · simp [normElem, normalizeSpec, strTruthy, optStrTruthy, hid, hsrc]

lemma applyNext_fst (m : Nat) (prev fresh : List Tile) :
    applyNextCompute m (applyNext m prev fresh).1 fresh = (applyNext m prev fresh).1 := by
  unfold applyNext
  by_cases hs : sameTiles prev (applyNextCompute m prev fresh) = true
  · rw [if_pos hs]
    exact ((sameTiles_iff _ _).1 hs).symm
  · rw [if_neg hs]
    exact applyNextCompute_idem m prev fresh

/-! ## Claim theorems -/

/-- C1, counterexample: with `fresh = [{id:"a",src:"x"}, {id:"a",src:"y"}]` and
`maxTiles = 2`, `applyNext` accepts both entries verbatim, so the accepted
portion of the result carries the id `"a"` twice — the claimed
within-`fresh` de-duplication does not happen. -/
theorem c1_counterexample :
    applyNextCompute 2 [] [⟨"a", some "x"⟩, ⟨"a", some "y"⟩] =
      [⟨"a", some "x"⟩, ⟨"a", some "y"⟩] ∧
    ¬ ((applyNextCompute 2 [] [⟨"a", some "x"⟩, ⟨"a", some "y"⟩]).map Tile.id).Nodup := by
  decide

/-- C1, amended: reconciliation takes the first `maxTiles` entries of
`fresh` verbatim (duplicates inside `fresh` are all kept); de-duplication
applies only to the backfill — every backfilled tile comes from `previous`,
its id occurs nowhere in `fresh`, and the backfilled ids are pairwise
distinct. The cited example still yields `[{id:"a",src:"x"}]` because with
`maxTiles = 1` only the first entry is taken. -/
theorem c1_amended :
    (∀ (m : Nat) (prev fresh : List Tile),
      ∃ B, applyNextCompute m prev fresh = fresh.take m ++ B ∧
        (∀ t ∈ B, t ∈ prev ∧ t.id ∉ fresh.map Tile.id) ∧
        (B.map Tile.id).Nodup) ∧
    (∀ prev : List Tile,
      applyNextCompute 1 prev [⟨"a", some "x"⟩, ⟨"a", some "y"⟩] = [⟨"a", some "x"⟩]) := by
  constructor
  · intro m prev fresh
    obtain ⟨B, h1, h2, h3, -⟩ := applyNextCompute_spec m prev fresh
    exact ⟨B, h1, h2, h3⟩
  · intro prev
    unfold applyNextCompute
    rw [if_neg (fun hc => absurd hc.1 (by decide))]
    decide

/-- C2, counterexample: with `maxTiles = 2`, an empty previous set and a
one-tile fresh batch, the list delivered to subscribers
(`setTiles` / `onTiles`) has length 1, not `maxTiles`, and carries no
placeholder — padding happens only in the render-slot computation. -/
theorem c2_counterexample :
    (applyNextState 2 ⟨[], [], false⟩ [⟨"a", some "x"⟩]).emitted =
      [[⟨"a", some "x"⟩]] ∧
    ([Tile.mk "a" (some "x")]).length ≠ 2 := by
  decide

/-- C2, amended: the list emitted to subscribers always has length at most
`maxTiles` and is not padded; the render-slot list — computed from the
current tiles at render time — is exactly the first `maxTiles` tiles
followed by placeholder tiles `{id: "placeholder-<index>", src: null}` at
the zero-based remaining slot positions, and always has length exactly
`maxTiles`. -/
theorem c2_amended :
    (∀ (m : Nat) (prev fresh : List Tile), (applyNextCompute m prev fresh).length ≤ m) ∧
    (∀ (m : Nat) (tiles : List Tile),
      renderSlots m tiles =
        tiles.take m ++
          placeholderRun (tiles.take m).length (m - (tiles.take m).length)) ∧
    (∀ (m : Nat) (tiles : List Tile), (renderSlots m tiles).length = m) := by
  refine ⟨?_, ?_, ?_⟩
  · intro m prev fresh
    obtain ⟨B, -, -, -, h⟩ := applyNextCompute_spec m prev fresh
    exact h
  · intro m tiles
    exact padSlots_spec m (m - (tiles.take m).length) (tiles.take m) le_rfl
  · intro m tiles
    have h := padSlots_spec m (m - (tiles.take m).length) (tiles.take m) le_rfl
    have htk : (tiles.take m).length ≤ m := List.length_take_le m tiles
    unfold renderSlots
    rw [h, List.length_append, placeholderRun_length]
    omega

/-- C3: evidence of the divergence. A transient HTTP 500 refresh failure
reaching the `setInterval` refresher of `App.jsx` deletes the persisted
token and logs the user out, while an `invalid_grant` failure (HTTP 400)
reaching `safeRefresh`'s catch leaves the token in place, because the
thrown `Error` carries no `response` body so the classifier never fires. -/
theorem c3_evidence :
    (intervalRefreshCatch
        ⟨some ⟨some "at", some "rt", 3600, 99, 0⟩,
         some ⟨some "at", some "rt", 3600, 99, 0⟩, ""⟩
        (refreshTokenError 500)).token = none ∧
    (intervalRefreshCatch
        ⟨some ⟨some "at", some "rt", 3600, 99, 0⟩,
         some ⟨some "at", some "rt", 3600, 99, 0⟩, ""⟩
        (refreshTokenError 500)).persisted = none ∧
    (appSafeRefreshCatch
        ⟨some ⟨some "at", some "rt", 3600, 99, 0⟩,
         some ⟨some "at", some "rt", 3600, 99, 0⟩, ""⟩
        (refreshTokenError 400)).token = some ⟨some "at", some "rt", 3600, 99, 0⟩ ∧
    (appSafeRefreshCatch
        ⟨some ⟨some "at", some "rt", 3600, 99, 0⟩,
         some ⟨some "at", some "rt", 3600, 99, 0⟩, ""⟩
        (refreshTokenError 400)).persisted = some ⟨some "at", some "rt", 3600, 99, 0⟩ := by
  decide

/-- C4: token refresh is single-flight per manager instance — when the
in-flight marker `refreshingRef.current` is set, `safeRefresh` returns
`null` immediately and the whole manager state (token, persisted record,
error banner, number of network requests issued) is unchanged. -/
theorem c4_single_flight (now : Int) (st : ManagerState) (t : Option Token)
    (o : RefreshOutcome) (h : st.refreshing = true) :
    safeRefresh now st t o = (none, st) := by
  simp [safeRefresh, h]

/-- Witness for C4 at a concrete in-flight state. -/
theorem c4_witness :
    (⟨true, none, none, "", 0⟩ : ManagerState).refreshing = true ∧
    safeRefresh 0 ⟨true, none, none, "", 0⟩
        (some ⟨some "at", some "rt", 3600, 99, 0⟩) (.err "boom") =
      (none, ⟨true, none, none, "", 0⟩) :=
  ⟨rfl, c4_single_flight 0 ⟨true, none, none, "", 0⟩
    (some ⟨some "at", some "rt", 3600, 99, 0⟩) (.err "boom") rfl⟩

/-- C5, counterexample: a cycle resolving with `retryMs = 0` under
`pollMs = 10000` schedules the next cycle at 0 ms, not at `pollMs` —
the code uses `wait ?? pollMs`, which replaces only `null`/absent
`retryMs`, never a zero or negative one. -/
theorem c5_counterexample :
    (loopStep 10000 6 ⟨[], [], false⟩ (.dynamicSuccess [] (some 0))).2 = some 0 ∧
    (some (0 : Int)) ≠ some (10000 : Int) := by
  decide

/-- C5, amended: for a dynamic cycle that completes without throwing (and
the engine not stopped), the next delay is `max 0 retryMs` whenever
`retryMs` is present — including zero and negative values, which are
clamped to 0 rather than replaced by `pollMs` — and `max 0 pollMs` only
when `retryMs` is absent (`null`). The cited example
(`retryMs = 5000`, `pollMs = 10000` → 5000) is an instance. -/
theorem c5_amended (pollMs : Int) (m : Nat) (st : EngineState)
    (tiles : List Tile) (r : Option Int) (h : st.stop = false) :
    (loopStep pollMs m st (.dynamicSuccess tiles r)).2 =
      some (max 0 (r.getD pollMs)) := by
  simp [loopStep, h]

/-- Witness for C5 at the spec's own example: `retryMs = 5000`,
`pollMs = 10000` → the next cycle is scheduled at 5000 ms. -/
theorem c5_witness :
    (⟨[], [], false⟩ : EngineState).stop = false ∧
    (loopStep 10000 6 ⟨[], [], false⟩ (.dynamicSuccess [] (some 5000))).2 =
      some 5000 := by
  refine ⟨rfl, ?_⟩
  have h := c5_amended 10000 6 ⟨[], [], false⟩ [] (some 5000) rfl
  rw [h]
  decide

/-- C6: when the dynamic fetch throws (and the engine is not stopped), the
exception is absorbed by `loop`'s catch — the engine state (previous
stable set and emission log) is untouched and the single armed timer is
exactly 30000 ms, independent of `pollMs` (and of any `retryMs`, which
does not reach the catch path). -/
theorem c6_fetch_throw (pollMs : Int) (m : Nat) (st : EngineState)
    (h : st.stop = false) :
    loopStep pollMs m st .dynamicThrow = (st, some 30000) := by
  simp [loopStep, h]

/-- Witness for C6 at a concrete running engine state. -/
theorem c6_witness :
    (⟨[], [], false⟩ : EngineState).stop = false ∧
    loopStep 10000 6 ⟨[], [], false⟩ .dynamicThrow =
      (⟨[], [], false⟩, some 30000) :=
  ⟨rfl, c6_fetch_throw 10000 6 ⟨[], [], false⟩ rfl⟩

/-- C7, counterexample: with the stop flag already set, a dynamic fetch
that resolves with one tile still updates the previous stable set and
still emits to subscribers — `applyNext` runs inside `fetchOnce` before
any `stop` check, so teardown does not prevent this side effect (only the
timer is suppressed). -/
theorem c7_counterexample :
    (⟨[], [], true⟩ : EngineState).stop = true ∧
    (loopStep 10000 6 ⟨[], [], true⟩
        (.dynamicSuccess [⟨"a", some "x"⟩] none)).1.prev = [⟨"a", some "x"⟩] ∧
    (loopStep 10000 6 ⟨[], [], true⟩
        (.dynamicSuccess [⟨"a", some "x"⟩] none)).1.emitted = [[⟨"a", some "x"⟩]] := by
  decide

/-- C7, amended: after teardown no timer is ever armed — for every cycle
outcome, a stopped engine schedules nothing — but a fetch resolving after
teardown may still run reconciliation once (updating the stable set and
emitting), since the stop flag is checked only after `applyNext` has
already run. -/
theorem c7_amended (pollMs : Int) (m : Nat) (st : EngineState)
    (o : FetchOutcome) (h : st.stop = true) :
    (loopStep pollMs m st o).2 = none := by
  cases o <;> simp [loopStep, h]

/-- Witness for C7 at a concrete stopped engine state. -/
theorem c7_witness :
    (⟨[], [], true⟩ : EngineState).stop = true ∧
    (loopStep 10000 6 ⟨[], [], true⟩ .dynamicThrow).2 = none :=
  ⟨rfl, c7_amended 10000 6 ⟨[], [], true⟩ .dynamicThrow rfl⟩

/-- C8, counterexample: an object element with no `id` but a non-empty
`src` is not dropped — `normalizeArraySource` fabricates the id from the
element's index (`v.id ?? String(i)`), so `[{src:"x"}]` normalizes to
`[{id:"0",src:"x"}]` instead of `[]`. -/
theorem c8_counterexample :
    normalizeArraySource [SrcElem.obj none (some "x")] = [⟨"0", some "x"⟩] ∧
    normalizeArraySource [SrcElem.obj none (some "x")] ≠ [] := by
  decide

/-- C8, amended: static normalization is a single pass in which a bare
string `s` becomes `{id:s, src:s}`, an object's missing id defaults to the
element's zero-based index as a string and its missing src to `""`, and
only after this defaulting are entries with an empty id or src dropped
(`normalizeSpec` states this pass independently); the engine then runs one
reconciliation on the result truncated to `maxTiles` and arms no timer —
no further polling ever happens. -/
theorem c8_amended :
    (∀ arr : List SrcElem, normalizeArraySource arr = normalizeSpec 0 arr) ∧
    (∀ (pollMs : Int) (m : Nat) (st : EngineState) (arr : List SrcElem),
      loopStep pollMs m st (.staticSource arr) =
        (applyNextState m st ((normalizeArraySource arr).take m), none)) := by
  refine ⟨?_, fun pollMs m st arr => rfl⟩
  intro arr
  unfold normalizeArraySource
  exact normalize_filter_eq arr 0

/-- C9: reconciliation is idempotent and emission fires only on change —
applying `applyNext` a second time with the same fresh batch, against the
stable set produced by the first application, returns that stable set
unchanged and fires no emission. -/
theorem c9_idempotent (m : Nat) (prev fresh : List Tile) :
    applyNext m (applyNext m prev fresh).1 fresh = ((applyNext m prev fresh).1, false) := by
  have h := applyNext_fst m prev fresh
  have hunfold : applyNext m (applyNext m prev fresh).1 fresh =
      if sameTiles (applyNext m prev fresh).1
          (applyNextCompute m (applyNext m prev fresh).1 fresh) = true then
        ((applyNext m prev fresh).1, false)
      else (applyNextCompute m (applyNext m prev fresh).1 fresh, true) := rfl
  rw [hunfold, h, if_pos (sameTiles_refl _)]

/-- C10: `store.get` is total — for every backing store content and every
key it returns `none` exactly when the key is absent or the stored string
does not parse (the empty string never parses as JSON, hence the
hypothesis on `parse`), and returns the parsed value exactly when the
stored string parses. Exceptions of `JSON.parse` are absorbed by the
`try/catch`, never propagated. -/
theorem c10_store_get_total {α : Type} (parse : String → Except String α)
    (st : List (String × String)) (key : String)
    (hempty : ∀ v : α, parse "" ≠ Except.ok v) :
    (storeGet parse st key = none ↔
      st.lookup key = none ∨
        ∃ x, st.lookup key = some x ∧ ∀ v, parse x ≠ Except.ok v) ∧
    (∀ v : α, storeGet parse st key = some v ↔
      ∃ x, st.lookup key = some x ∧ parse x = Except.ok v) := by
  cases hlk : st.lookup key with
  | none =>
    have hget : storeGet parse st key = none := by
      unfold storeGet
      rw [hlk]
    rw [hget]
    constructor
    · simp
    · intro v
      simp
  | some x =>
    by_cases hx : x = ""
    · subst hx
      have hget : storeGet parse st key = none := by
        unfold storeGet
        rw [hlk]
        rfl
      rw [hget]
      constructor
      · exact ⟨fun _ => Or.inr ⟨"", rfl, hempty⟩, fun _ => rfl⟩
      · intro v
        constructor
        · intro hv
          exact absurd hv (by simp)
        · rintro ⟨x', hx', hp⟩
          cases hx'
          exact absurd hp (hempty v)
    · cases hp : parse x with
      | ok v0 =>
        have hget : storeGet parse st key = some v0 := by
          unfold storeGet
          rw [hlk]
          show (if x = "" then (none : Option α) else
            match parse x with
            | Except.ok v => some v
            | Except.error _ => none) = some v0
          rw [if_neg hx, hp]
        rw [hget]
        constructor
        · constructor
          · intro hv
            exact absurd hv (by simp)
          · rintro (h | ⟨x', hx', hall⟩)
            · exact absurd h (by simp)
            · cases hx'
              exact absurd hp (hall v0)
        · intro v
          constructor
          · intro hv
            injection hv with hvv
            exact ⟨x, rfl, hvv ▸ hp⟩
          · rintro ⟨x', hx', hpv⟩
            cases hx'
            rw [hp] at hpv
            injection hpv with hvv
            rw [hvv]
      | error e =>
        have hget : storeGet parse st key = none := by
          unfold storeGet
          rw [hlk]
          show (if x = "" then (none : Option α) else
            match parse x with
            | Except.ok v => some v
            | Except.error _ => none) = none
          rw [if_neg hx, hp]
        rw [hget]
        constructor
        · refine ⟨fun _ => Or.inr ⟨x, rfl, fun v hv => ?_⟩, fun _ => rfl⟩
          rw [hp] at hv
          cases hv
        · intro v
          constructor
          · intro hv
            exact absurd hv (by simp)
          · rintro ⟨x', hx', hpv⟩
            cases hx'
            rw [hp] at hpv
            cases hpv

/-- A tiny concrete stand-in for `JSON.parse` used by the C10 witness. -/
def demoParse (s : String) : Except String Nat :=
  if s = "ok" then Except.ok 1 else Except.error "bad"

/-- Witness for C10 at a concrete parser and store. -/
theorem c10_witness :
    (∀ v : Nat, demoParse "" ≠ Except.ok v) ∧
    (∀ v : Nat, storeGet demoParse [("k", "ok")] "k" = some v ↔
      ∃ x, List.lookup "k" [("k", "ok")] = some x ∧ demoParse x = Except.ok v) := by
  have hempty : ∀ v : Nat, demoParse "" ≠ Except.ok v := by
    intro v hv
    simp [demoParse] at hv
  exact ⟨hempty, (c10_store_get_total demoParse [("k", "ok")] "k" hempty).2⟩

end AlbumArt
